import Mathlib

/-!
Verification of the blob/media/image storage core of the repository.

Go values are embedded shallowly:
* Go `[]byte` and `string` values become `Bytes := List Nat`, one `Nat` per
  byte (a Go `string` is an immutable byte sequence, and `[]byte(s)` is the
  identity on the underlying bytes).
* machine integers become `Nat`/`Int` with explicit `% 2^w` where overflow
  matters;
* fallible operations return `Except`; every service operation also returns
  the resulting repository state, since the Go code mutates state before a
  failure can be reported.
-/

namespace HomeCase

/-- A byte string: Go `[]byte` / `string`, one `Nat` per byte. -/
abbrev Bytes := List Nat

/-- Truncate to 32 bits (`uint32` arithmetic). -/
def w32 (x : Nat) : Nat := x % 4294967296

/-- Rotate a 32-bit word right by `n` (0 < n < 32, x < 2^32). -/
def rotr32 (n x : Nat) : Nat := w32 ((x >>> n) ||| (x <<< (32 - n)))

/-- Big-endian byte serialization of `x` into `n` bytes. -/
def toBytesBE (n x : Nat) : Bytes :=
  (List.range n).map (fun i => (x >>> (8 * (n - 1 - i))) % 256)

/-- SHA-256 round constants (FIPS 180-4) in decimal, as used by Go
`crypto/sha256`: the fractional parts of the cube roots of the first 64
primes, as 32-bit words. -/
def sha256K : List Nat :=
  [1116352408, 1899447441, 3049323471, 3921009573, 961987163, 1508970993,
   2453635748, 2870763221, 3624381080, 310598401, 607225278, 1426881987,
   1925078388, 2162078206, 2614888103, 3248222580, 3835390401, 4022224774,
   264347078, 604807628, 770255983, 1249150122, 1555081692, 1996064986,
   2554220882, 2821834349, 2952996808, 3210313671, 3336571891, 3584528711,
   113926993, 338241895, 666307205, 773529912, 1294757372, 1396182291,
   1695183700, 1986661051, 2177026350, 2456956037, 2730485921, 2820302411,
   3259730800, 3345764771, 3516065817, 3600352804, 4094571909, 275423344,
   430227734, 506948616, 659060556, 883997877, 958139571, 1322822218,
   1537002063, 1747873779, 1955562222, 2024104815, 2227730452, 2361852424,
   2428436474, 2756734187, 3204031479, 3329325298]

/-- The eight working variables of the SHA-256 compression function. -/
structure Sha8 where
  a : Nat
  b : Nat
  c : Nat
  d : Nat
  e : Nat
  f : Nat
  g : Nat
  h : Nat
deriving DecidableEq, Repr

/-- SHA-256 initial hash value (FIPS 180-4) in decimal. -/
def sha256Init : Sha8 :=
  ⟨1779033703, 3144134277, 1013904242, 2773480762,
   1359893119, 2600822924, 528734635, 1541459225⟩

/-- Number of zero bytes inserted by SHA-256 padding after the 0x80 byte. -/
def sha256PadZeros (len : Nat) : Nat := (64 + 56 - (len + 1) % 64) % 64

/-- SHA-256 message padding: 0x80, zeros, then the bit length as 8 bytes BE. -/
def sha256Pad (msg : Bytes) : Bytes :=
  msg ++ [128] ++ List.replicate (sha256PadZeros msg.length) 0 ++ toBytesBE 8 (msg.length * 8)

/-- Split a byte string into 64-byte blocks. -/
def chunks64 (l : Bytes) : List Bytes :=
  if l.isEmpty then [] else l.take 64 :: chunks64 (l.drop 64)
termination_by l.length
decreasing_by
  rename_i h
  rw [List.isEmpty_eq_true] at h
  have hp : 0 < l.length := List.length_pos.mpr h
  simp [List.length_drop]
  omega

/-- Parse a block into big-endian 32-bit words. -/
def bytesToWordsBE : Bytes → List Nat
  | a :: b :: c :: d :: rest => ((a <<< 24) ||| (b <<< 16) ||| (c <<< 8) ||| d) :: bytesToWordsBE rest
  | _ => []

/-- SHA-256 small sigma 0. -/
def ssig0 (x : Nat) : Nat := (rotr32 7 x) ^^^ (rotr32 18 x) ^^^ (x >>> 3)

/-- SHA-256 small sigma 1. -/
def ssig1 (x : Nat) : Nat := (rotr32 17 x) ^^^ (rotr32 19 x) ^^^ (x >>> 10)

/-- SHA-256 big Sigma 0. -/
def bsig0 (x : Nat) : Nat := (rotr32 2 x) ^^^ (rotr32 13 x) ^^^ (rotr32 22 x)

/-- SHA-256 big Sigma 1. -/
def bsig1 (x : Nat) : Nat := (rotr32 6 x) ^^^ (rotr32 11 x) ^^^ (rotr32 25 x)

/-- SHA-256 Ch function; complement is xor with the all-ones 32-bit word. -/
def chF (x y z : Nat) : Nat := (x &&& y) ^^^ ((x ^^^ 4294967295) &&& z)

/-- SHA-256 Maj function. -/
def majF (x y z : Nat) : Nat := (x &&& y) ^^^ (x &&& z) ^^^ (y &&& z)

/-- Extend the 16 message words to the 64-entry SHA-256 message schedule. -/
def extendW (w : List Nat) : List Nat :=
  if 64 ≤ w.length then w
  else
    let i := w.length
    extendW (w ++ [w32 (w.getD (i - 16) 0 + ssig0 (w.getD (i - 15) 0) +
                        w.getD (i - 7) 0 + ssig1 (w.getD (i - 2) 0))])
termination_by 64 - w.length
decreasing_by
  simp at *
  omega

/-- One SHA-256 compression round over the working variables. -/
def sha256Round (st : Sha8) (kw : Nat × Nat) : Sha8 :=
  let t1 := w32 (st.h + bsig1 st.e + chF st.e st.f st.g + kw.1 + kw.2)
  let t2 := w32 (bsig0 st.a + majF st.a st.b st.c)
  ⟨w32 (t1 + t2), st.a, st.b, st.c, w32 (st.d + t1), st.e, st.f, st.g⟩

/-- SHA-256 compression of a single 64-byte block into the running hash. -/
def sha256Compress (hs : Sha8) (block : Bytes) : Sha8 :=
  let ws := extendW (bytesToWordsBE block)
  let t := (sha256K.zip ws).foldl sha256Round hs
  ⟨w32 (hs.a + t.a), w32 (hs.b + t.b), w32 (hs.c + t.c), w32 (hs.d + t.d),
   w32 (hs.e + t.e), w32 (hs.f + t.f), w32 (hs.g + t.g), w32 (hs.h + t.h)⟩

/-- SHA-256 digest (FIPS 180-4), the function computed by Go `crypto/sha256`. -/
def sha256 (msg : Bytes) : Bytes :=
  let hs := (chunks64 (sha256Pad msg)).foldl sha256Compress sha256Init
  toBytesBE 4 hs.a ++ toBytesBE 4 hs.b ++ toBytesBE 4 hs.c ++ toBytesBE 4 hs.d ++
  toBytesBE 4 hs.e ++ toBytesBE 4 hs.f ++ toBytesBE 4 hs.g ++ toBytesBE 4 hs.h

/-- ASCII lowercasing of one byte, the effect of Go `strings.ToLower` on
ASCII input (all inputs in this development are ASCII). -/
def asciiToLower (b : Nat) : Nat := if 65 ≤ b ∧ b ≤ 90 then b + 32 else b

/-- ASCII uppercasing of one byte, the effect of Go `strings.ToUpper` on
ASCII input. -/
def asciiToUpper (b : Nat) : Nat := if 97 ≤ b ∧ b ≤ 122 then b - 32 else b

/-- Bytewise ASCII lowercasing of a byte string. -/
def toLowerBytes (s : Bytes) : Bytes := s.map asciiToLower

/-- The Crockford Base32 alphabet "0123456789ABCDEFGHJKMNPQRSTVWXYZ" as
byte values (`crockfordBase32Alphabet` in `crockford.go`). -/
def crockfordAlphabet : List Nat :=
  [48, 49, 50, 51, 52, 53, 54, 55, 56, 57, 65, 66, 67, 68, 69, 70, 71, 72,
   74, 75, 77, 78, 80, 81, 82, 83, 84, 86, 87, 88, 89, 90]

/-- The inner `for bits >= 5` loop of `EncodeCrockfordB32LC`: emit 5-bit
groups from the top of the accumulator while at least 5 bits are pending.
Returns the emitted alphabet indices and the remaining bit count.  Go keeps
the accumulator in an `int` that may wrap at 2^64; since only the low
`bits ≤ 12` bits are ever consulted (each emission shifts right and masks
with 0x1F) the wrap is unobservable and the unbounded `Nat` accumulator is
faithful. -/
def drainBits (bits accum : Nat) : List Nat × Nat :=
  if h : 5 ≤ bits then
    let idx := (accum >>> (bits - 5)) &&& 31
    let rest := drainBits (bits - 5) accum
    (idx :: rest.1, rest.2)
  else ([], bits)
termination_by bits
decreasing_by omega

/-- The alphabet indices emitted by `EncodeCrockfordB32LC`: the outer loop
shifts each input byte into the accumulator and drains 5-bit groups; the
final partial group (if any) is left-aligned into 5 bits. -/
def encIndices : Bytes → Nat → Nat → List Nat
  | [], bits, accum => if 0 < bits then [(accum <<< (5 - bits)) &&& 31] else []
  | b :: rest, bits, accum =>
    let accum' := (accum <<< 8) ||| b
    let step := drainBits (bits + 8) accum'
    step.1 ++ encIndices rest step.2 accum'

/-- Go `EncodeCrockfordB32LC`: encode with the Crockford alphabet, then
lowercase the whole output (`strings.ToLower`). -/
def encodeCrockfordB32LC (input : Bytes) : Bytes :=
  toLowerBytes ((encIndices input 0 0).map (fun i => crockfordAlphabet.getD i 0))

/-- The per-rune switch of `NormalizeCrockfordB32LC`: map 'O' to '0' and
'I'/'L' to '1', leave everything else unchanged. -/
def normSwitch (b : Nat) : Nat :=
  if b = 79 then 48 else if b = 73 ∨ b = 76 then 49 else b

/-- Go `NormalizeCrockfordB32LC`: strip spaces, uppercase, apply the O/I/L
switch, lowercase.  Go iterates runes and uses Unicode case mapping; on
ASCII input (which every encoder output is) runes coincide with bytes and
the case maps coincide with the ASCII ones used here. -/
def normalizeCrockfordB32LC (input : Bytes) : Bytes :=
  toLowerBytes (((input.filter (fun b => b ≠ 32)).map asciiToUpper).map normSwitch)

/-! ## Domain types (`internal/domain`) -/

/-- Go `domain.MediaMeta`: metadata of a media file.  Go strings are byte
strings; `Size` is `int64`.  JSON (de)serialization of this record
(`AsBlob` / `NewMediaMetaFromBlob`) is modelled as the identity on the
typed record: `json.Marshal` never fails on it and unmarshal inverts it. -/
structure MediaMeta where
  filename : Bytes
  id : Bytes
  hash : Bytes
  size : Int
  owner : Bytes
  mimeType : Bytes
deriving DecidableEq, Repr

/-- Go `MediaMeta.update`: recompute `Hash` and `Size` from the content, then
recompute `ID` from the new hash and the `Filename`/`MIMEType`/`Owner`
fields (`media_meta.go`). -/
def MediaMeta.update (m : MediaMeta) (data : Bytes) : MediaMeta :=
  let m1 : MediaMeta :=
    { m with hash := encodeCrockfordB32LC (sha256 data), size := (data.length : Int) }
  { m1 with id := encodeCrockfordB32LC (sha256 (m1.hash ++ m1.filename ++ m1.mimeType ++ m1.owner)) }

/-- Go `domain.Media`: content bytes plus metadata. -/
structure Media where
  data : Bytes
  meta : MediaMeta
deriving DecidableEq, Repr

/-- Go `domain.NewMedia`: store the content and re-derive the metadata from it. -/
def NewMedia (data : Bytes) (meta : MediaMeta) : Media :=
  ⟨data, meta.update data⟩

/-- Go `Media.Size`: `int64(len(m.data))`. -/
def Media.size (m : Media) : Int := (m.data.length : Int)

/-! ## Blob repositories as key-value maps

The filesystem repository is modelled as an association list from blob id
to stored value.  `Store` overwrites, `Fetch`/`Delete` fail with the
os-mapped not-found error when the blob is absent, `Exists` is a lookup.
Advisory locks serialize the operations and are invisible in this
sequential model. -/

/-- Look a key up in an association list (first match). -/
def repoLookup {α : Type} (r : List (Bytes × α)) (id : Bytes) : Option α :=
  match r with
  | [] => none
  | p :: rest => if p.1 = id then some p.2 else repoLookup rest id

/-- Remove every entry with the given key. -/
def repoErase {α : Type} : List (Bytes × α) → Bytes → List (Bytes × α)
  | [], _ => []
  | p :: rest, id => if p.1 = id then repoErase rest id else p :: repoErase rest id

/-- Go `Repository.Store`: overwrite the value under `id`. -/
def repoStore {α : Type} (r : List (Bytes × α)) (id : Bytes) (v : α) : List (Bytes × α) :=
  repoErase r id ++ [(id, v)]

/-- Go `Repository.Delete`: remove the blob, or report not-found when absent. -/
def repoDelete {α : Type} (r : List (Bytes × α)) (id : Bytes) : Option (List (Bytes × α)) :=
  match repoLookup r id with
  | none => none
  | some _ => some (repoErase r id)

/-- Go `Repository.Exists`. -/
def repoExists {α : Type} (r : List (Bytes × α)) (id : Bytes) : Bool :=
  (repoLookup r id).isSome

/-! ## Media service (`internal/svc/mediasvc`) -/

/-- The three repositories of a `BlobMediaService`: content blobs, meta
blobs (typed, see `MediaMeta`), and newline-framed backref blobs. -/
structure MState where
  dataRepo : List (Bytes × Bytes)
  metaRepo : List (Bytes × MediaMeta)
  backrefRepo : List (Bytes × Bytes)
deriving DecidableEq, Repr

/-- Error kinds surfaced by the media service operations.  `notFound` is
the os-mapped not-exist I/O error of the filesystem repository. -/
inductive MediaErr where
  | mediaTooLarge
  | unauthorized
  | notFound
deriving DecidableEq, Repr

deriving instance DecidableEq for Except

/-- Go `bytes.Split(body, []byte("\n"))`: split on every newline byte; the
empty body yields one empty entry. -/
def splitNl : Bytes → List Bytes
  | [] => [[]]
  | b :: rest =>
    if b = 10 then [] :: splitNl rest
    else
      match splitNl rest with
      | s :: ss => (b :: s) :: ss
      | [] => [[b]]

/-- Go `bytes.Join(refs, []byte("\n"))`. -/
def joinWith (sep : Nat) : List Bytes → Bytes
  | [] => []
  | [x] => x
  | x :: xs => x ++ sep :: joinWith sep xs

/-- Go `slices.DeleteFunc(refs, v == id)`: keep the entries different from `id`. -/
def dropRef (id : Bytes) (refs : List Bytes) : List Bytes :=
  refs.filter (fun v => v ≠ id)

/-- Go `BlobMediaService.fetchBackrefs`: absent backref blob means no
references; otherwise split the body on newlines. -/
def fetchBackrefs (st : MState) (blobID : Bytes) : List Bytes :=
  match repoLookup st.backrefRepo blobID with
  | none => []
  | some body => splitNl body

/-- Go `BlobMediaService.storeBackrefs`: join with newlines and store. -/
def storeBackrefs (st : MState) (blobID : Bytes) (refs : List Bytes) : MState :=
  { st with backrefRepo := repoStore st.backrefRepo blobID (joinWith 10 refs) }

/-- Go `BlobMediaService.addBackrefs` with a single meta id. -/
def addBackrefs (st : MState) (dataID metaID : Bytes) : MState :=
  storeBackrefs st dataID (fetchBackrefs st dataID ++ [metaID])

/-- Go `BlobMediaService.Store`: reject oversize media, store the data blob
only when absent, and store meta plus backref entry only when the meta
blob is absent.  Lock acquisition and JSON marshalling of the meta record
cannot fail in this model. -/
def mediaStore (maxSize : Int) (st : MState) (m : Media) : Except MediaErr Unit × MState :=
  if m.size > maxSize then (.error .mediaTooLarge, st)
  else
    let dataID := m.meta.hash
    let st1 :=
      if repoExists st.dataRepo dataID then st
      else { st with dataRepo := repoStore st.dataRepo dataID m.data }
    if repoExists st1.metaRepo m.meta.id then (.ok (), st1)
    else
      let st2 := { st1 with metaRepo := repoStore st1.metaRepo m.meta.id m.meta }
      (.ok (), addBackrefs st2 dataID m.meta.id)

/-- Go `BlobMediaService.pruneMedia`: drop the meta id from the backref list;
if nothing remains delete the data blob and the backref blob, otherwise
rewrite the backref blob with the filtered list. -/
def pruneMedia (st : MState) (meta : MediaMeta) : Except MediaErr Bool × MState :=
  let dataID := meta.hash
  let refs := dropRef meta.id (fetchBackrefs st dataID)
  if refs.isEmpty then
    match repoDelete st.dataRepo dataID with
    | none => (.error .notFound, st)
    | some d1 =>
      let st1 := { st with dataRepo := d1 }
      match repoDelete st1.backrefRepo dataID with
      | none => (.error .notFound, st1)
      | some b1 => (.ok true, { st1 with backrefRepo := b1 })
  else (.ok false, storeBackrefs st dataID refs)

/-- Go `BlobMediaService.Delete`: fetch the meta, authorize the caller
against the owner, prune, then delete the meta blob.  A prune failure
returns before the meta blob is deleted. -/
def mediaDelete (st : MState) (username : Option Bytes) (mediaID : Bytes) :
    Except MediaErr (Bool × Bytes) × MState :=
  match repoLookup st.metaRepo mediaID with
  | none => (.error .notFound, st)
  | some meta =>
    match username with
    | none => (.error .unauthorized, st)
    | some u =>
      if u = meta.owner then
        match pruneMedia st meta with
        | (.error e, st1) => (.error e, st1)
        | (.ok pruned, st1) =>
          match repoDelete st1.metaRepo mediaID with
          | none => (.error .notFound, st1)
          | some m1 => (.ok (pruned, meta.hash), { st1 with metaRepo := m1 })
      else (.error .unauthorized, st)

/-- Go `BlobMediaService.Fetch`: fetch the meta, authorize the caller against
the owner, fetch the data, return a re-derived `Media`. -/
def mediaFetch (st : MState) (username : Option Bytes) (mediaID : Bytes) :
    Except MediaErr Media × MState :=
  match repoLookup st.metaRepo mediaID with
  | none => (.error .notFound, st)
  | some meta =>
    match username with
    | none => (.error .unauthorized, st)
    | some u =>
      if u = meta.owner then
        match repoLookup st.dataRepo meta.hash with
        | none => (.error .notFound, st)
        | some data => (.ok (NewMedia data meta), st)
      else (.error .unauthorized, st)

/-! ## Image service (`internal/svc/imagesvc`) -/

/-- Error kinds of the image service; delegated media errors are wrapped. -/
inductive ImageErr where
  | imageTooLarge
  | imageTypeNotSupported
  | imageTypeMismatch
  | media : MediaErr → ImageErr
deriving DecidableEq, Repr

/-- Whether `s` starts with `p` (`bytes.HasPrefix`). -/
def bytesStartWith : Bytes → Bytes → Bool
  | [], _ => true
  | _ :: _, [] => false
  | a :: p, b :: s => a == b && bytesStartWith p s

/-- The suffix of `s` after the last occurrence of `sep` (all of `s` when
`sep` does not occur). -/
def takeAfterLast (sep : Nat) (s : Bytes) : Bytes :=
  (s.reverse.takeWhile (fun b => b ≠ sep)).reverse

/-- Go `filepath.Ext`: the suffix starting at the final dot of the final path
element, including the dot; empty when there is no dot. -/
def filepathExt (name : Bytes) : Bytes :=
  let base := takeAfterLast 47 name
  if base.contains 46 then 46 :: takeAfterLast 46 base else []

/-- The byte string "image/jpeg". -/
def mimeJPEG : Bytes := [105, 109, 97, 103, 101, 47, 106, 112, 101, 103]

/-- The byte string "image/png". -/
def mimePNG : Bytes := [105, 109, 97, 103, 101, 47, 112, 110, 103]

/-- The byte string "image/tiff". -/
def mimeTIFF : Bytes := [105, 109, 97, 103, 101, 47, 116, 105, 102, 102]

/-- The `imageExtTypes` table (`image_filetypes.go`): lowercased filename
extension to MIME type; keys ".jpg" ".jpeg" ".png" ".tiff" ".tif". -/
def imageExtTypes (ext : Bytes) : Option Bytes :=
  if ext = [46, 106, 112, 103] ∨ ext = [46, 106, 112, 101, 103] then some mimeJPEG
  else if ext = [46, 112, 110, 103] then some mimePNG
  else if ext = [46, 116, 105, 102, 102] ∨ ext = [46, 116, 105, 102] then some mimeTIFF
  else none

/-- The `imageExtHeaders` table: magic-byte prefixes per MIME type. -/
def imageExtHeaders (mime : Bytes) : List Bytes :=
  if mime = mimeJPEG then [[255, 216]]
  else if mime = mimePNG then [[137, 80, 78, 71, 13, 10, 26, 10]]
  else if mime = mimeTIFF then [[73, 73, 42, 0], [77, 77, 0, 42]]
  else []

/-- Go `BlobImageService.CheckUploadConstraints`: size ceiling first, then the
extension table, then (when a body is supplied) the magic-byte check.
Returns the resolved MIME type (empty when no body was supplied). -/
def checkUploadConstraints (maxSize : Int) (filename : Bytes) (size : Int)
    (image : Option Bytes) : Except ImageErr Bytes :=
  if size > maxSize then .error .imageTooLarge
  else
    match imageExtTypes (toLowerBytes (filepathExt filename)) with
    | none => .error .imageTypeNotSupported
    | some mime =>
      match image with
      | none => .ok []
      | some img =>
        if (imageExtHeaders mime).any (fun hd => bytesStartWith hd img) then .ok mime
        else .error .imageTypeMismatch

/-- Go `BlobImageService.Store`: run the constraint check with the body; only
on success delegate to the media service. -/
def imageStore (maxSize : Int) (st : MState) (m : Media) : Except ImageErr Unit × MState :=
  match checkUploadConstraints maxSize m.meta.filename ((m.data.length : Int)) (some m.data) with
  | .error e => (.error e, st)
  | .ok _ =>
    match mediaStore maxSize st m with
    | (.error e, st1) => (.error (.media e), st1)
    | (.ok _, st1) => (.ok (), st1)

/-- Binary length of a natural number, with structural fuel (any fuel of
at least the bit count works; `bitLen` below passes `n` itself). -/
def bitLenFuel : Nat → Nat → Nat
  | 0, _ => 0
  | fuel + 1, n => if n = 0 then 0 else bitLenFuel fuel (n / 2) + 1

/-- Binary length of a natural number: 0 for 0, otherwise the exponent of
the leading bit plus one. -/
def bitLen (n : Nat) : Nat := bitLenFuel n n

/-- floor(a * 2^k / b) for an integer exponent k, together with the
sticky flag telling whether the division left a nonzero remainder. -/
def scaledQuotRem (a b : Nat) (k : Int) : Nat × Bool :=
  if 0 ≤ k then
    let x := a <<< k.toNat
    (x / b, decide (x % b ≠ 0))
  else
    let d := b <<< (-k).toNat
    (a / d, decide (a % d ≠ 0))

/-- Whether a/b is at least 2^d (a, b positive). -/
def ratGePow2 (a b : Nat) (d : Int) : Bool :=
  if 0 ≤ d then decide (b <<< d.toNat ≤ a) else decide (b ≤ a <<< (-d).toNat)

/-- IEEE-754 binary64 rounding (round to nearest, ties to even) of the
positive rational a/b, as a pair (m, e) denoting m * 2^e with the
normalized significand 2^52 ≤ m < 2^53; zero is (0, 0).  This is exactly
Go's `float64(a)/float64(b)` whenever a, b < 2^53 (so the two int-to-float
conversions are exact) and the quotient lies in binary64's normal range,
which holds for all Go `int` image dimensions.  Division by zero is mapped
to (0, 0) here; Go produces +Inf, and the one caller below is only
claimed faithful for a positive divisor. -/
def fl64Div (a b : Nat) : Nat × Int :=
  if a = 0 ∨ b = 0 then (0, 0)
  else
    let d : Int := (bitLen a : Int) - (bitLen b : Int)
    let e : Int := if ratGePow2 a b d then d - 52 else d - 53
    let q2s := scaledQuotRem a b (1 - e)
    let m0 := q2s.1 / 2
    let m1 := if q2s.1 % 2 = 1 ∧ (q2s.2 = true ∨ m0 % 2 = 1) then m0 + 1 else m0
    if m1 = 2 ^ 53 then (2 ^ 52, e + 1) else (m1, e)

/-- The exact binary64 conversion of a natural number (Go `float64(n)`),
via the rounding division by 1. -/
def fl64OfNat (n : Nat) : Nat × Int := fl64Div n 1

/-- IEEE-754 binary64 multiplication (round to nearest, ties to even) of
two nonnegative values in the (m, e) representation produced by
`fl64Div`: the significand product 2^104 ≤ p < 2^106 is rounded back to
53 bits.  Faithful to Go's `float64` product as long as no overflow or
underflow occurs, which holds for all Go `int` image dimensions. -/
def fl64Mul (x y : Nat × Int) : Nat × Int :=
  if x.1 = 0 ∨ y.1 = 0 then (0, 0)
  else
    let p := x.1 * y.1
    let s : Nat := if p < 2 ^ 105 then 52 else 53
    let m0 := p >>> s
    let m1 := if (p >>> (s - 1)) % 2 = 1 ∧ (p % 2 ^ (s - 1) ≠ 0 ∨ m0 % 2 = 1) then m0 + 1
              else m0
    let e := x.2 + y.2 + (s : Int)
    if m1 = 2 ^ 53 then (2 ^ 52, e + 1) else (m1, e)

/-- Go's `int(x)` conversion of a nonnegative binary64 value: truncation
toward zero, i.e. the floor of m * 2^e. -/
def fl64TruncNat (x : Nat × Int) : Nat :=
  if 0 ≤ x.2 then x.1 <<< x.2.toNat else x.1 >>> (-x.2).toNat

/-- The height computation of `resizeImage` (`part_008`), computed in
binary64 exactly as Go does:
`ratio := float64(width)/float64(origW)` then
`height := int(float64(origH) * ratio)`, truncating toward zero.  Because
of the two float64 roundings this can differ from both the rounding and
the floor of the exact rational origH*width/origW; see the C5 theorems. -/
def resizeHeight (origW origH width : Nat) : Nat :=
  fl64TruncNat (fl64Mul (fl64OfNat origH) (fl64Div width origW))

/-- The raster allocated by `resizeImage`:
`image.NewRGBA(image.Rect(0, 0, width, height))`. -/
def resizeRasterDims (origW origH width : Nat) : Nat × Nat :=
  (width, resizeHeight origW origH width)

/-- Modelled from the spec's words for claim C5: "round(origH * width / origW),
i.e. the nearest integer to the exact rational origH*width/origW"
(ties rounded up; the counterexample below is far from a tie). -/
def specRound (num den : Nat) : Nat := (2 * num + den) / (2 * den)

/-- Modelled from the spec's words for claim C5: the claimed target height. -/
def specResizeHeight (origW origH width : Nat) : Nat :=
  specRound (origH * width) origW

/-! ## Filesystem blob paths (`internal/repo/blob/filesystem_blob_repository.go`) -/

theorem repoLookup_erase_self {α : Type} (r : List (Bytes × α)) (id : Bytes) :
    repoLookup (repoErase r id) id = none := by
  induction r with
  | nil => rfl
  | cons p rest ih =>
    unfold repoErase
    by_cases h : p.1 = id
    · rw [if_pos h]
      exact ih
    · rw [if_neg h]
      unfold repoLookup
      rw [if_neg h]
      exact ih

theorem repoLookup_erase_ne {α : Type} (r : List (Bytes × α)) (id id' : Bytes)
    (h : id' ≠ id) : repoLookup (repoErase r id) id' = repoLookup r id' := by
  induction r with
  | nil => rfl
  | cons p rest ih =>
    unfold repoErase
    by_cases hp : p.1 = id
    · have hpne : ¬ p.1 = id' := by
        rw [hp]
        exact fun he => h he.symm
      rw [if_pos hp, ih]
      conv_rhs => unfold repoLookup
      rw [if_neg hpne]
    · rw [if_neg hp]
      conv_lhs => unfold repoLookup
      conv_rhs => unfold repoLookup
      by_cases hp' : p.1 = id'
      · rw [if_pos hp', if_pos hp']
      · rw [if_neg hp', if_neg hp', ih]

theorem repoLookup_append_none {α : Type} (a b : List (Bytes × α)) (id : Bytes)
    (h : repoLookup a id = none) : repoLookup (a ++ b) id = repoLookup b id := by
  induction a with
  | nil => rfl
  | cons p rest ih =>
    unfold repoLookup at h
    by_cases hp : p.1 = id
    · rw [if_pos hp] at h
      exact absurd h (by simp)
    · rw [if_neg hp] at h
      rw [List.cons_append]
      conv_lhs => unfold repoLookup
      rw [if_neg hp]
      exact ih h

theorem repoLookup_append_some {α : Type} (a b : List (Bytes × α)) (id : Bytes) (v : α)
    (h : repoLookup a id = some v) : repoLookup (a ++ b) id = some v := by
  induction a with
  | nil => exact absurd h (by simp [repoLookup])
  | cons p rest ih =>
    unfold repoLookup at h
    rw [List.cons_append]
    unfold repoLookup
    by_cases hp : p.1 = id
    · rw [if_pos hp] at h ⊢
      exact h
    · rw [if_neg hp] at h ⊢
      exact ih h

theorem repoLookup_store_self {α : Type} (r : List (Bytes × α)) (id : Bytes) (v : α) :
    repoLookup (repoStore r id v) id = some v := by
  unfold repoStore
  rw [repoLookup_append_none _ _ _ (repoLookup_erase_self r id)]
  unfold repoLookup
  rw [if_pos rfl]

theorem repoLookup_store_ne {α : Type} (r : List (Bytes × α)) (id id' : Bytes) (v : α)
    (h : id' ≠ id) : repoLookup (repoStore r id v) id' = repoLookup r id' := by
  unfold repoStore
  rw [← repoLookup_erase_ne r id id' h]
  cases he : repoLookup (repoErase r id) id' with
  | some v' => rw [repoLookup_append_some _ _ _ _ he]
  | none =>
    rw [repoLookup_append_none _ _ _ he]
    unfold repoLookup
    rw [if_neg (fun he2 => h he2.symm)]
    rfl

theorem repoDelete_of_some {α : Type} (r : List (Bytes × α)) (id : Bytes) (v : α)
    (h : repoLookup r id = some v) : repoDelete r id = some (repoErase r id) := by
  unfold repoDelete
  rw [h]

theorem repoDelete_of_none {α : Type} (r : List (Bytes × α)) (id : Bytes)
    (h : repoLookup r id = none) : repoDelete r id = none := by
  unfold repoDelete
  rw [h]

theorem repoExists_eq_true {α : Type} (r : List (Bytes × α)) (id : Bytes) (v : α)
    (h : repoLookup r id = some v) : repoExists r id = true := by
  simp [repoExists, h]

theorem repoExists_eq_false {α : Type} (r : List (Bytes × α)) (id : Bytes)
    (h : repoLookup r id = none) : repoExists r id = false := by
  simp [repoExists, h]

/-- A newline-free body parses as a single backref entry. -/
theorem splitNl_eq_single (b : Bytes) (h : 10 ∉ b) : splitNl b = [b] := by
  induction b with
  | nil => rfl
  | cons x rest ih =>
    have hx : ¬ x = 10 := fun he => h (he ▸ List.mem_cons_self x rest)
    have hrest : 10 ∉ rest := fun hm => h (List.mem_cons_of_mem _ hm)
    have hr := ih hrest
    unfold splitNl
    rw [if_neg hx, hr]

/-! ## Claim C9 -/

/-- A byte that the normalizer maps to itself after lowercasing: not a
space, and a fixed point of the uppercase/switch/lowercase pipeline. -/
abbrev goodB32 (c : Nat) : Prop :=
  c ≠ 32 ∧ asciiToLower (normSwitch (asciiToUpper c)) = c

/-- Every lowercased Crockford alphabet byte is a normalizer fixed point. -/
theorem crockfordAlphabet_good :
    ∀ i, i < 32 → goodB32 (asciiToLower (crockfordAlphabet.getD i 0)) := by decide

theorem normalize_eq_self_of_good (l : Bytes) (h : ∀ c ∈ l, goodB32 c) :
    normalizeCrockfordB32LC l = l := by
  induction l with
  | nil => rfl
  | cons c rest ih =>
    have hc := h c (List.mem_cons_self c rest)
    have hr : ∀ x ∈ rest, goodB32 x := fun x hx => h x (List.mem_cons_of_mem _ hx)
    unfold normalizeCrockfordB32LC toLowerBytes at ih ⊢
    rw [List.filter_cons_of_pos (by simpa using hc.1)]
    simp only [List.map_cons, List.cons.injEq]
    exact ⟨hc.2, ih hr⟩

theorem and31_lt (x : Nat) : x &&& 31 < 32 :=
  Nat.lt_of_le_of_lt Nat.and_le_right (by omega)

theorem drainBits_mem_lt (bits accum : Nat) : ∀ x ∈ (drainBits bits accum).1, x < 32 := by
  induction bits using Nat.strong_induction_on with
  | _ bits ih =>
    rw [drainBits]
    split
    · rename_i h
      intro x hx
      rcases List.mem_cons.mp hx with rfl | hx'
      · exact and31_lt _
      · exact ih (bits - 5) (by omega) x hx'
    · intro x hx
      simp at hx
  -- strong induction carries the accumulator through


theorem encIndices_mem_lt (input : Bytes) :
    ∀ bits accum x, x ∈ encIndices input bits accum → x < 32 := by
  induction input with
  | nil =>
    intro bits accum x hx
    unfold encIndices at hx
    split at hx
    · rcases List.mem_singleton.mp hx with rfl
      exact and31_lt _
    · simp at hx
  | cons b rest ih =>
    intro bits accum x hx
    unfold encIndices at hx
    rcases List.mem_append.mp hx with h1 | h2
    · exact drainBits_mem_lt _ _ x h1
    · exact ih _ _ x h2

/-- C9: normalizing the Crockford-Base32 lowercase encoding of any byte
sequence returns it unchanged:
`NormalizeCrockfordB32LC(EncodeCrockfordB32LC(b)) = EncodeCrockfordB32LC(b)`. -/
theorem c9_normalize_encode_identity (b : Bytes) :
    normalizeCrockfordB32LC (encodeCrockfordB32LC b) = encodeCrockfordB32LC b := by
  apply normalize_eq_self_of_good
  intro c hc
  unfold encodeCrockfordB32LC toLowerBytes at hc
  rw [List.map_map] at hc
  rcases List.mem_map.mp hc with ⟨i, hi, rfl⟩
  exact crockfordAlphabet_good i (encIndices_mem_lt b 0 0 i hi)

/-! ## Claim C3 -/

/-- C3: `NewMedia` derives `size = len(body)`, `hash = base32lc(sha256(body))`
and `id = base32lc(sha256(hash ++ filename ++ mimeType ++ owner))`, keeps the
supplied filename/owner/mimeType, ignores the supplied id/hash/size (two
input metas agreeing on filename, mimeType and owner yield the same derived
meta), and equal bodies always yield equal hashes. -/
theorem c3_new_media_derivations (data : Bytes) (meta meta2 : MediaMeta)
    (hf : meta2.filename = meta.filename) (hm : meta2.mimeType = meta.mimeType)
    (ho : meta2.owner = meta.owner) :
    (NewMedia data meta).meta.hash = encodeCrockfordB32LC (sha256 data) ∧
    (NewMedia data meta).meta.size = (data.length : Int) ∧
    (NewMedia data meta).meta.id =
      encodeCrockfordB32LC (sha256 (encodeCrockfordB32LC (sha256 data) ++
        meta.filename ++ meta.mimeType ++ meta.owner)) ∧
    (NewMedia data meta).meta.filename = meta.filename ∧
    (NewMedia data meta).meta.owner = meta.owner ∧
    (NewMedia data meta).meta.mimeType = meta.mimeType ∧
    (NewMedia data meta2).meta = (NewMedia data meta).meta ∧
    (∀ mm : MediaMeta, (NewMedia data mm).meta.hash = (NewMedia data meta).meta.hash) := by
  refine ⟨rfl, rfl, rfl, rfl, rfl, rfl, ?_, fun mm => rfl⟩
  cases meta with
  | mk f i hsh s o mt =>
    cases meta2 with
    | mk f2 i2 hsh2 s2 o2 mt2 =>
      simp only at hf hm ho
      subst hf
      subst hm
      subst ho
      rfl

/-- Concrete inputs for the C3 witness: two metas agreeing on filename,
mimeType and owner but differing in id, hash and size. -/
def c3Meta : MediaMeta := ⟨[102], [1], [2], 5, [111], [109]⟩

/-- Second concrete meta for the C3 witness. -/
def c3Meta2 : MediaMeta := ⟨[102], [9, 9], [8], 77, [111], [109]⟩

/-- Witness for C3 at concrete inputs. -/
theorem c3_new_media_derivations_witness :
    (NewMedia [97] c3Meta2).meta = (NewMedia [97] c3Meta).meta :=
  (c3_new_media_derivations [97] c3Meta c3Meta2 rfl rfl rfl).2.2.2.2.2.2.1

/-! ## Claim C5 -/

/-- C5 counterexample: at original width 3, original height 1, target
width 2 the code computes height int(1 * float64(2/3)) = 0 while the
claimed `round(origH*width/origW)` is 1; the resize raster is 2 × 0,
not 2 × 1. -/
theorem c5_counterexample :
    resizeHeight 3 1 2 = 0 ∧ specResizeHeight 3 1 2 = 1 ∧
    resizeRasterDims 3 1 2 ≠ (2, specResizeHeight 3 1 2) := by decide

/-- C5 (amended): the resize step computes the target height as the
truncation toward zero of the binary64 product
float64(origH) * (float64(width)/float64(origW)), and produces a raster
of exactly width × that height.  The truncation is not the claimed
nearest integer (3×1 at width 2 yields 0, with round(2/3) = 1), and the
two float64 roundings also make it differ from the floor of the exact
rational at some inputs: 49×147 at width 1 yields 2 though 147·1/49 = 3
exactly, and 3×27 at width 13 yields 116 though 27·13/3 = 117. -/
theorem c5_resize_truncates :
    (∀ origW origH width : Nat,
      resizeRasterDims origW origH width = (width, resizeHeight origW origH width)) ∧
    resizeHeight 3 1 2 = 0 ∧ specResizeHeight 3 1 2 = 1 ∧
    resizeHeight 49 147 1 = 2 ∧ 147 * 1 / 49 = 3 ∧
    resizeHeight 3 27 13 = 116 ∧ 27 * 13 / 3 = 117 :=
  ⟨fun _ _ _ => rfl, by decide⟩

/-! ## Claim C6 -/

/-- C10: whenever the request context carries no username, Fetch and
Delete of a stored media fail with Unauthorized regardless of the media's
owner field (including the empty owner), and leave the state unchanged. -/
theorem c10_absent_username_unauthorized (st : MState) (mediaID : Bytes) (M : MediaMeta)
    (hmeta : repoLookup st.metaRepo mediaID = some M) :
    mediaFetch st none mediaID = (.error .unauthorized, st) ∧
    mediaDelete st none mediaID = (.error .unauthorized, st) := by
  constructor
  · unfold mediaFetch
    rw [hmeta]
  · unfold mediaDelete
    rw [hmeta]

/-- Concrete meta for the C10 witness, with the empty string as owner. -/
def c10M : MediaMeta := ⟨[], [1], [2], 0, [], []⟩

/-- Concrete state for the C10 witness. -/
def c10St : MState := ⟨[([2], [9])], [([1], c10M)], [([2], [1])]⟩

/-- Witness for C10 at concrete inputs (owner is the empty string). -/
theorem c10_absent_username_unauthorized_witness :
    mediaFetch c10St none [1] = (.error .unauthorized, c10St) ∧
    mediaDelete c10St none [1] = (.error .unauthorized, c10St) :=
  c10_absent_username_unauthorized c10St [1] c10M (by decide)

/-! ## Claim C7 -/

/-- C7: the media service rejects exactly the media with size strictly
greater than the configured maximum — size = MaxSize is accepted and
storage proceeds, size = MaxSize+1 is rejected with MediaTooLarge before
any write (the state is returned unchanged) — and the image service's
upload constraint check applies the same strict inequality with
ImageTooLarge. -/
theorem c7_size_limit (maxSize : Int) (st : MState) (m : Media)
    (filename : Bytes) (size : Int) (img : Option Bytes) :
    ((mediaStore maxSize st m).1 = .error .mediaTooLarge ↔ m.size > maxSize) ∧
    (m.size > maxSize → mediaStore maxSize st m = (.error .mediaTooLarge, st)) ∧
    (m.size ≤ maxSize → (mediaStore maxSize st m).1 = .ok ()) ∧
    (checkUploadConstraints maxSize filename size img = .error .imageTooLarge ↔ size > maxSize) := by
  refine ⟨⟨fun he => ?_, fun hgt => ?_⟩, fun hgt => ?_, fun hle => ?_, ⟨fun he => ?_, fun hgt => ?_⟩⟩
  · by_cases hgt : m.size > maxSize
    · exact hgt
    · exfalso
      unfold mediaStore at he
      rw [if_neg hgt] at he
      dsimp only at he
      split at he <;> split at he <;> simp at he
  · unfold mediaStore
    rw [if_pos hgt]
  · unfold mediaStore
    rw [if_pos hgt]
  · unfold mediaStore
    rw [if_neg (by omega : ¬ m.size > maxSize)]
    dsimp only
    split <;> split <;> rfl
  · by_cases hgt : size > maxSize
    · exact hgt
    · exfalso
      unfold checkUploadConstraints at he
      rw [if_neg hgt] at he
      split at he
      · simp at he
      · split at he
        · simp at he
        · split at he <;> simp at he
  · unfold checkUploadConstraints
    rw [if_pos hgt]

/-- Concrete media for the C7 witness: size 2 against a ceiling of 1. -/
def c7Media : Media := ⟨[0, 0], ⟨[], [1], [2], 2, [3], []⟩⟩

/-- Witness for C7 at concrete inputs. -/
theorem c7_size_limit_witness :
    mediaStore 1 ⟨[], [], []⟩ c7Media = (.error .mediaTooLarge, ⟨[], [], []⟩) :=
  (c7_size_limit 1 ⟨[], [], []⟩ c7Media [] 0 none).2.1 (by decide)

/-! ## Claim C8 -/

/-- C8: when the filename extension resolves in the MIME table but the
body starts with none of the magic-byte prefixes of the resolved MIME
(and the size ceiling is not hit first), image Store fails with
ImageTypeMismatch before delegating to the media service: the returned
state is the input state, so no blobs are written. -/
theorem c8_magic_mismatch (maxSize : Int) (st : MState) (m : Media) (mime : Bytes)
    (hsize : (m.data.length : Int) ≤ maxSize)
    (hext : imageExtTypes (toLowerBytes (filepathExt m.meta.filename)) = some mime)
    (hmagic : ∀ hd ∈ imageExtHeaders mime, bytesStartWith hd m.data = false) :
    imageStore maxSize st m = (.error .imageTypeMismatch, st) := by
  have hchk : checkUploadConstraints maxSize m.meta.filename ((m.data.length : Int))
      (some m.data) = .error .imageTypeMismatch := by
    unfold checkUploadConstraints
    rw [if_neg (by omega : ¬ (m.data.length : Int) > maxSize), hext]
    have hany : (imageExtHeaders mime).any (fun hd => bytesStartWith hd m.data) = false := by
      rw [List.any_eq_false]
      intro hd hin
      simp [hmagic hd hin]
    simp [hany]
  unfold imageStore
  rw [hchk]

/-- Concrete media for the C8 witness: filename "doc.png" with a body
starting with the JPEG magic FF D8. -/
def c8Media : Media := ⟨[255, 216], ⟨[100, 111, 99, 46, 112, 110, 103], [1], [2], 2, [3], []⟩⟩

/-- Witness for C8 at concrete inputs. -/
theorem c8_magic_mismatch_witness :
    imageStore 100 ⟨[], [], []⟩ c8Media = (.error .imageTypeMismatch, ⟨[], [], []⟩) :=
  c8_magic_mismatch 100 ⟨[], [], []⟩ c8Media mimePNG (by decide) (by decide) (by decide)

/-! ## Claims C1, C2, C4: the store/delete protocols -/

/-- The state produced by a first `Store` of a media whose meta blob and
backref blob are both absent: data written only when absent, meta stored,
backref list extended to exactly the new meta id. -/
theorem mediaStore_fresh (maxSize : Int) (st : MState) (m : Media)
    (hsize : ¬ m.size > maxSize)
    (hmeta : repoLookup st.metaRepo m.meta.id = none)
    (hback : repoLookup st.backrefRepo m.meta.hash = none) :
    mediaStore maxSize st m =
      (.ok (), ⟨(if repoExists st.dataRepo m.meta.hash then st.dataRepo
                 else repoStore st.dataRepo m.meta.hash m.data),
                repoStore st.metaRepo m.meta.id m.meta,
                repoStore st.backrefRepo m.meta.hash m.meta.id⟩) := by
  unfold mediaStore
  rw [if_neg hsize]
  dsimp only
  have hme : ¬ repoExists st.metaRepo m.meta.id = true := by
    simp [repoExists_eq_false _ _ hmeta]
  by_cases hd : repoExists st.dataRepo m.meta.hash = true
  · rw [if_pos hd, if_pos hd, if_neg hme]
    unfold addBackrefs fetchBackrefs storeBackrefs
    dsimp only
    rw [hback]
    rfl
  · rw [if_neg hd, if_neg hd]
    dsimp only
    rw [if_neg hme]
    unfold addBackrefs fetchBackrefs storeBackrefs
    dsimp only
    rw [hback]
    rfl

/-- A `Store` of a media whose data and meta blobs both exist is a no-op. -/
theorem mediaStore_existing (maxSize : Int) (st : MState) (m : Media)
    (hsize : ¬ m.size > maxSize)
    (hdata : repoExists st.dataRepo m.meta.hash = true)
    (hmeta : repoExists st.metaRepo m.meta.id = true) :
    mediaStore maxSize st m = (.ok (), st) := by
  unfold mediaStore
  rw [if_neg hsize]
  dsimp only
  rw [if_pos hdata, if_pos hmeta]

/-- C2: storing the same media twice (same owner, filename, mime, body)
succeeds both times and the second call leaves the store exactly as after
the first: the data blob exists after the first call, the second call
skips the meta write and the backref append, and the backref list at
m.hash holds exactly one entry equal to m.id. -/
theorem c2_store_idempotent (maxSize : Int) (st : MState) (m : Media)
    (hsize : m.size ≤ maxSize)
    (hmeta : repoLookup st.metaRepo m.meta.id = none)
    (hback : repoLookup st.backrefRepo m.meta.hash = none)
    (hnl : 10 ∉ m.meta.id) :
    (mediaStore maxSize st m).1 = .ok () ∧
    mediaStore maxSize (mediaStore maxSize st m).2 m = (.ok (), (mediaStore maxSize st m).2) ∧
    fetchBackrefs (mediaStore maxSize st m).2 m.meta.hash = [m.meta.id] ∧
    repoExists (mediaStore maxSize st m).2.dataRepo m.meta.hash = true := by
  have hngt : ¬ m.size > maxSize := by omega
  have h1 := mediaStore_fresh maxSize st m hngt hmeta hback
  have hdataAfter : repoExists (mediaStore maxSize st m).2.dataRepo m.meta.hash = true := by
    rw [h1]
    dsimp only
    by_cases hd : repoExists st.dataRepo m.meta.hash = true
    · rw [if_pos hd]
      exact hd
    · rw [if_neg hd]
      exact repoExists_eq_true _ _ _ (repoLookup_store_self st.dataRepo m.meta.hash m.data)
  refine ⟨by rw [h1], ?_, ?_, hdataAfter⟩
  · rw [h1] at hdataAfter ⊢
    dsimp only at hdataAfter ⊢
    exact mediaStore_existing maxSize _ m hngt hdataAfter
      (repoExists_eq_true _ _ _ (repoLookup_store_self st.metaRepo m.meta.id m.meta))
  · rw [h1]
    dsimp only
    unfold fetchBackrefs
    dsimp only
    rw [repoLookup_store_self]
    exact splitNl_eq_single m.meta.id hnl

/-- Fresh concrete state and media for the C2 witness. -/
def c2Media : Media := ⟨[5, 6], ⟨[102], [1], [2], 2, [3], [4]⟩⟩

/-- Witness for C2 at concrete inputs. -/
theorem c2_store_idempotent_witness :
    (mediaStore 100 ⟨[], [], []⟩ c2Media).1 = .ok () ∧
    mediaStore 100 (mediaStore 100 ⟨[], [], []⟩ c2Media).2 c2Media =
      (.ok (), (mediaStore 100 ⟨[], [], []⟩ c2Media).2) ∧
    fetchBackrefs (mediaStore 100 ⟨[], [], []⟩ c2Media).2 c2Media.meta.hash =
      [c2Media.meta.id] ∧
    repoExists (mediaStore 100 ⟨[], [], []⟩ c2Media).2.dataRepo c2Media.meta.hash = true :=
  c2_store_idempotent 100 ⟨[], [], []⟩ c2Media (by decide) (by decide) (by decide) (by decide)

/-- C1: deleting a stored media by its owner removes the media id from
the backref list at the content hash; when the filtered list is empty the
data blob and the backref blob are deleted and pruned=true is returned,
otherwise the backref blob is rewritten with the filtered list and
pruned=false is returned; in both cases the meta blob is deleted and the
returned data id equals the meta's hash. -/
theorem c1_delete_semantics (st : MState) (M : MediaMeta) (body refBody : Bytes)
    (hmeta : repoLookup st.metaRepo M.id = some M)
    (hdata : repoLookup st.dataRepo M.hash = some body)
    (hback : repoLookup st.backrefRepo M.hash = some refBody) :
    (mediaDelete st (some M.owner) M.id).1 =
      .ok ((dropRef M.id (splitNl refBody)).isEmpty, M.hash) ∧
    repoLookup (mediaDelete st (some M.owner) M.id).2.metaRepo M.id = none ∧
    ((dropRef M.id (splitNl refBody)).isEmpty = true →
      repoLookup (mediaDelete st (some M.owner) M.id).2.dataRepo M.hash = none ∧
      repoLookup (mediaDelete st (some M.owner) M.id).2.backrefRepo M.hash = none) ∧
    ((dropRef M.id (splitNl refBody)).isEmpty = false →
      repoLookup (mediaDelete st (some M.owner) M.id).2.backrefRepo M.hash =
        some (joinWith 10 (dropRef M.id (splitNl refBody)))) := by
  have hdel : mediaDelete st (some M.owner) M.id =
      (if (dropRef M.id (splitNl refBody)).isEmpty then
        (.ok (true, M.hash),
          ⟨repoErase st.dataRepo M.hash, repoErase st.metaRepo M.id,
           repoErase st.backrefRepo M.hash⟩)
      else
        (.ok (false, M.hash),
          ⟨st.dataRepo, repoErase st.metaRepo M.id,
           repoStore st.backrefRepo M.hash
             (joinWith 10 (dropRef M.id (splitNl refBody)))⟩)) := by
    unfold mediaDelete
    rw [hmeta]
    dsimp only
    rw [if_pos rfl]
    unfold pruneMedia fetchBackrefs storeBackrefs
    dsimp only
    rw [hback]
    dsimp only
    by_cases hie : (dropRef M.id (splitNl refBody)).isEmpty = true
    · rw [if_pos hie, if_pos hie, repoDelete_of_some _ _ _ hdata]
      dsimp only
      rw [repoDelete_of_some _ _ _ hback]
      dsimp only
      rw [repoDelete_of_some _ _ _ hmeta]
    · rw [if_neg hie, if_neg hie]
      dsimp only
      rw [repoDelete_of_some _ _ _ hmeta]
  rw [hdel]
  by_cases hie : (dropRef M.id (splitNl refBody)).isEmpty = true
  · rw [if_pos hie]
    exact ⟨by rw [hie], repoLookup_erase_self _ _,
      fun _ => ⟨repoLookup_erase_self _ _, repoLookup_erase_self _ _⟩,
      fun hco => by rw [hie] at hco; simp at hco⟩
  · rw [if_neg hie]
    have hf : (dropRef M.id (splitNl refBody)).isEmpty = false := by
      cases hx : (dropRef M.id (splitNl refBody)).isEmpty
      · rfl
      · exact absurd hx hie
    exact ⟨by rw [hf], repoLookup_erase_self _ _,
      fun hco => absurd hco hie,
      fun _ => repoLookup_store_self _ _ _⟩

/-- Concrete meta and state for the C1 witness: one stored media whose
backref list holds exactly its own id. -/
def c1M : MediaMeta := ⟨[], [1], [2], 0, [3], []⟩

/-- Concrete state for the C1 witness. -/
def c1St : MState := ⟨[([2], [9])], [([1], c1M)], [([2], [1])]⟩

/-- Witness for C1 at concrete inputs (last reference: prune happens). -/
theorem c1_delete_semantics_witness :
    (mediaDelete c1St (some c1M.owner) c1M.id).1 =
      .ok ((dropRef c1M.id (splitNl [1])).isEmpty, c1M.hash) ∧
    repoLookup (mediaDelete c1St (some c1M.owner) c1M.id).2.metaRepo c1M.id = none ∧
    ((dropRef c1M.id (splitNl [1])).isEmpty = true →
      repoLookup (mediaDelete c1St (some c1M.owner) c1M.id).2.dataRepo c1M.hash = none ∧
      repoLookup (mediaDelete c1St (some c1M.owner) c1M.id).2.backrefRepo c1M.hash = none) ∧
    ((dropRef c1M.id (splitNl [1])).isEmpty = false →
      repoLookup (mediaDelete c1St (some c1M.owner) c1M.id).2.backrefRepo c1M.hash =
        some (joinWith 10 (dropRef c1M.id (splitNl [1])))) :=
  c1_delete_semantics c1St c1M [9] [1] (by decide) (by decide) (by decide)

/-- Concrete meta for the C4 counterexample. -/
def c4M : MediaMeta := ⟨[], [1], [2], 0, [3], []⟩

/-- Concrete state for the C4 counterexample: meta and backref blobs
present, data blob absent (removed out-of-band). -/
def c4St : MState := ⟨[], [([1], c4M)], [([2], [1])]⟩

/-- C4 counterexample: deleting a media whose data blob vanished
out-of-band (and which holds the last backref) surfaces the not-found I/O
error, but the meta blob is NOT deleted — it is still present afterwards,
contradicting the claim that the delete still deletes the meta. -/
theorem c4_counterexample :
    (mediaDelete c4St (some [3]) [1]).1 = .error .notFound ∧
    repoLookup (mediaDelete c4St (some [3]) [1]).2.metaRepo [1] = some c4M := by decide

/-- C4 (amended): for a stored media whose data blob has been removed
out-of-band while its meta and backref blobs remain, with no other
reference in the backref list, Delete by the owner surfaces the not-found
I/O error from pruning the absent data blob and returns WITHOUT deleting
the meta blob: the state is returned unchanged.  (When other references
remain, prune never touches the data blob and the delete succeeds.) -/
theorem c4_delete_missing_data (st : MState) (M : MediaMeta) (refBody : Bytes)
    (hmeta : repoLookup st.metaRepo M.id = some M)
    (hdata : repoLookup st.dataRepo M.hash = none)
    (hback : repoLookup st.backrefRepo M.hash = some refBody)
    (hlast : (dropRef M.id (splitNl refBody)).isEmpty = true) :
    mediaDelete st (some M.owner) M.id = (.error .notFound, st) := by
  unfold mediaDelete
  rw [hmeta]
  dsimp only
  rw [if_pos rfl]
  unfold pruneMedia fetchBackrefs
  dsimp only
  rw [hback]
  dsimp only
  rw [if_pos hlast, repoDelete_of_none _ _ hdata]

/-- Concrete meta for the C4 witness (distinct from the counterexample). -/
def c4WM : MediaMeta := ⟨[], [7], [8], 0, [4], []⟩

/-- Concrete state for the C4 witness. -/
def c4WSt : MState := ⟨[], [([7], c4WM)], [([8], [7])]⟩

/-- Witness for the amended C4 at concrete inputs. -/
theorem c4_delete_missing_data_witness :
    mediaDelete c4WSt (some c4WM.owner) c4WM.id = (.error .notFound, c4WSt) :=
  c4_delete_missing_data c4WSt c4WM [7] (by decide) (by decide) (by decide) (by decide)

end HomeCase
